import Mathlib

/-!
Verification of the subtitle-serialization core of the `auto-subtitle`
command-line utility (`cli.py`), against its natural-language specification.

The serializer (`write_srt` with its inner `format_timestamp`) and the
CLI control flow of `main` are embedded shallowly:

* Python `float` seconds are modelled as rationals (`ℚ`);
* Python `int(x)` (truncation toward zero), `x // y` (floor division) and
  `x % y` are modelled explicitly as `pyInt`, `pyFloorDiv` and `pyMod`;
* the output file is modelled as the string of everything written so far;
  a `KeyError` raised by `segment['text']` on a segment lacking the `text`
  key surfaces as the `WriteResult.keyError` constructor, carrying the
  partial content already written;
* the external collaborators (filesystem, ffmpeg probe, whisper
  transcription, ffmpeg transform) are modelled as an explicit `World` of
  their observable outcomes, and `main` as a function from parsed flags
  and that world to a process outcome.
-/

/-- Python's ASCII whitespace set, as stripped by `str.strip()`. -/
def pyIsSpace (c : Char) : Bool :=
  c = ' ' || c = '\t' || c = '\n' || c = '\r' || c = '\x0b' || c = '\x0c'

/-- `str.strip()` on the character list: drop whitespace from both ends. -/
def stripList (l : List Char) : List Char :=
  ((l.dropWhile pyIsSpace).reverse.dropWhile pyIsSpace).reverse

/-- `s.strip()` for Python strings. -/
def pyStrip (s : String) : String :=
  ⟨stripList s.data⟩

/-- `str.replace('-->', '→')`: replace each non-overlapping occurrence of
the three-character sequence `-->`, scanning left to right, by `→`. -/
def replaceArrow : List Char → List Char
  | '-' :: '-' :: '>' :: rest => '→' :: replaceArrow rest
  | c :: rest => c :: replaceArrow rest
  | [] => []

/-- The sanitization applied by `write_srt` to a segment's text:
`segment['text'].strip().replace('-->', '→')` (cli.py line 44). -/
def pySanitize (s : String) : String :=
  ⟨replaceArrow (stripList s.data)⟩

/-- Zero-pad a digit string on the left to the given minimum width
(Python's `str.zfill`, the digits part of a `0`-padded format). -/
def zfill (width : Nat) (s : String) : String :=
  ⟨List.replicate (width - s.length) '0' ++ s.data⟩

/-- Python `f"{n:0wd}"`: zero-padded decimal of minimum total width `w`;
for a negative number the sign occupies one column of the width. -/
def pyFormatD (width : Nat) (n : ℤ) : String :=
  if n < 0 then "-" ++ zfill (width - 1) (Nat.repr n.natAbs)
  else zfill width (Nat.repr n.toNat)

/-- Python `int(x)` on a float: truncation toward zero. -/
def pyInt (q : ℚ) : ℤ :=
  if 0 ≤ q then ⌊q⌋ else -⌊-q⌋

/-- Python `x // y` on floats (here `y` is always a positive constant):
the floor of the true quotient, as a float-valued whole number. -/
def pyFloorDiv (a b : ℚ) : ℚ :=
  ((⌊a / b⌋ : ℤ) : ℚ)

/-- Python `x % y` on floats with positive `y`: `x - y * (x // y)`. -/
def pyMod (a b : ℚ) : ℚ :=
  a - b * ((⌊a / b⌋ : ℤ) : ℚ)

/-- `format_timestamp` (cli.py lines 34–39):

    hours = int(seconds // 3600)
    minutes = int((seconds % 3600) // 60)
    secs = int(seconds % 60)
    milliseconds = int((seconds - int(seconds)) * 1000)
    return f"{hours:02d}:{minutes:02d}:{secs:02d},{milliseconds:03d}"
-/
def format_timestamp (seconds : ℚ) : String :=
  let hours : ℤ := pyInt (pyFloorDiv seconds 3600)
  let minutes : ℤ := pyInt (pyFloorDiv (pyMod seconds 3600) 60)
  let secs : ℤ := pyInt (pyMod seconds 60)
  let milliseconds : ℤ := pyInt ((seconds - (pyInt seconds : ℚ)) * 1000)
  pyFormatD 2 hours ++ ":" ++ pyFormatD 2 minutes ++ ":" ++ pyFormatD 2 secs
    ++ "," ++ pyFormatD 3 milliseconds

/-- A transcript segment as consumed by `write_srt`: the dictionary keys
`start`, `end` and `text`; a dictionary lacking the `text` key is modelled
by `text = none` (accessing it raises `KeyError`). -/
structure Segment where
  start : ℚ
  «end» : ℚ
  text : Option String
deriving DecidableEq

/-- Outcome of a `write_srt` call on the file sink: either the complete
content written, or a `KeyError` escaped with the partial content the sink
had already received. -/
inductive WriteResult where
  | ok (content : String)
  | keyError (partialContent : String)
deriving DecidableEq

/-- The four lines `write_srt` writes for the segment numbered `i` whose
`text` key holds `t` (cli.py lines 45–47). -/
def srtEntry (i : ℕ) (seg : Segment) (t : String) : String :=
  Nat.repr i ++ "\n"
    ++ format_timestamp seg.start ++ " --> " ++ format_timestamp seg.«end» ++ "\n"
    ++ pySanitize t ++ "\n\n"

/-- The enumeration loop of `write_srt`, carrying the running index and the
content written so far.  For each segment the timestamps are formatted
first; the `segment['text']` access then raises `KeyError` when the key is
absent, before any line of that segment is written. -/
def write_srt_aux : ℕ → List Segment → String → WriteResult
  | _, [], acc => .ok acc
  | i, seg :: rest, acc =>
    match seg.text with
    | none => .keyError acc
    | some t => write_srt_aux (i + 1) rest (acc ++ srtEntry i seg t)

/-- `write_srt(segments, file)` (cli.py lines 33–47): enumerate from 1 and
write the four lines of each segment in order. -/
def write_srt (segments : List Segment) : WriteResult :=
  write_srt_aux 1 segments ""

/-! ## The CLI control flow of `main` -/

/-- The top-level names defined by the module `cli.py`: its imports and its
`def` statements.  Name resolution of a call target succeeds exactly when
the name is in this list; `transform_audio_to_video` (called at line 189)
is not among them. -/
def moduleTopLevelNames : List String :=
  ["argparse", "os", "sys", "subprocess", "whisper", "ffmpeg", "time",
   "create_assets_directory", "check_file_exists", "has_audio_stream",
   "write_srt", "extract_subtitles", "transform_audio_to_video_with_subtitles",
   "main"]

/-- Python name resolution at a call site in `main`: look the name up among
the module's top-level bindings. -/
def pyResolve (name : String) : Option Unit :=
  if name ∈ moduleTopLevelNames then some () else none

/-- The boolean flags parsed by `main` (the remaining options do not affect
which operations run or the exit code). -/
structure Args where
  extract_subtitles : Bool
  audio_to_video : Bool
  audio_to_video_with_subtitles : Bool
  combine : Bool
deriving DecidableEq

/-- Observable outcome of the ffmpeg probe (`has_audio_stream`): an audio
stream is found, none is found, or `ffmpeg.probe` raises `ffmpeg.Error`. -/
inductive ProbeResult where
  | hasAudio
  | noAudio
  | probeError
deriving DecidableEq

/-- The behaviour of the external collaborators during one invocation:
whether the input file exists, what the ffmpeg probe reports for it, the
segments the whisper transcription returns, and whether the ffmpeg
transform in `transform_audio_to_video_with_subtitles` raises. -/
structure World where
  fileExists : Bool
  probe : ProbeResult
  transcribedSegments : List Segment
  transformFails : Bool

/-- How an invocation of `main` ends: a `sys.exit`/normal completion with a
process exit code, an unhandled `NameError` for an unbound name, or another
unhandled Python exception (e.g. `KeyError` from `write_srt`). -/
inductive MainOutcome where
  | exited (code : ℕ)
  | nameError (name : String)
  | pyError (msg : String)
deriving DecidableEq

/-- `has_audio_stream` (cli.py lines 20–30): `ffmpeg.Error` from the probe
is caught and turned into `sys.exit(1)`; otherwise report whether an audio
stream is present. -/
def has_audio_stream_m (w : World) : Except MainOutcome Bool :=
  match w.probe with
  | .hasAudio => .ok true
  | .noAudio => .ok false
  | .probeError => .error (.exited 1)

/-- `extract_subtitles` (cli.py lines 49–73): when the input has no audio
track, print and return `None`; otherwise transcribe and serialize the
segments with `write_srt` (a `KeyError` there escapes), returning the path
of the written subtitle file. -/
def extract_subtitles_m (w : World) : Except MainOutcome (Option String) := do
  let audio ← has_audio_stream_m w
  if !audio then
    return none
  match write_srt w.transcribedSegments with
  | .keyError _ => .error (.pyError "KeyError: text")
  | .ok _ => return some "subtitles.srt"

/-- The subtitle-extraction step of `main` (cli.py lines 170–184):
`srt_file` starts as `None` and is reassigned from `extract_subtitles`
when any of the three subtitle-needing flags is set. -/
def extractStep (a : Args) (w : World) : Except MainOutcome (Option String) :=
  if a.extract_subtitles || a.combine || a.audio_to_video_with_subtitles then
    extract_subtitles_m w
  else
    .ok none

/-- `transform_audio_to_video_with_subtitles` (cli.py lines 75–132) as
called from `main`, followed by `main` running to completion: no audio
track means the function returns early (and `main` then completes with
exit code 0); an `ffmpeg.Error` during the transform is caught and turned
into `sys.exit(1)`; otherwise the video is produced and `main` completes. -/
def transform_avws_m (w : World) : MainOutcome :=
  match has_audio_stream_m w with
  | .error o => o
  | .ok false => .exited 0
  | .ok true => if w.transformFails then .exited 1 else .exited 0

/-- `main` (cli.py lines 134–210): create the assets directory, exit 1 if
the input file is missing, run the extraction step if requested, then the
audio-to-video step (whose call target `transform_audio_to_video` must be
resolved as a name first), then the subtitled-video step, which aborts with
exit code 1 when no subtitle file was produced.  Falling off the end of
`main` exits with code 0. -/
def main_m (a : Args) (w : World) : MainOutcome :=
  if !w.fileExists then .exited 1
  else
    match extractStep a w with
    | .error o => o
    | .ok srt_file =>
      if a.audio_to_video || a.combine then
        match pyResolve "transform_audio_to_video" with
        | none => .nameError "transform_audio_to_video"
        | some _ => .exited 0
      else if a.audio_to_video_with_subtitles then
        match srt_file with
        | none => .exited 1
        | some _ => transform_avws_m w
      else .exited 0

/-! ## Derived views used to state the properties -/

/-- The character of a decimal digit value. -/
def digitCh (k : ℕ) : Char := Char.ofNat (48 + k)

/-- The timecode rendered from a whole number `N` of milliseconds:
hours `N / 3600000`, minutes `N / 60000 % 60`, seconds `N / 1000 % 60`
and milliseconds `N % 1000`, each zero-padded. -/
def timecodeString (N : ℕ) : String :=
  zfill 2 (Nat.repr (N / 3600000)) ++ ":" ++ zfill 2 (Nat.repr (N / 60000 % 60)) ++ ":"
    ++ zfill 2 (Nat.repr (N / 1000 % 60)) ++ "," ++ zfill 3 (Nat.repr (N % 1000))

/-- The twelve characters of a timecode below one hundred hours, rendered
from a whole number `N` of milliseconds. -/
def timecodeDigits (N : ℕ) : List Char :=
  [digitCh (N / 3600000 / 10), digitCh (N / 3600000 % 10), ':',
   digitCh (N / 60000 % 60 / 10), digitCh (N / 60000 % 60 % 10), ':',
   digitCh (N / 1000 % 60 / 10), digitCh (N / 1000 % 60 % 10), ',',
   digitCh (N % 1000 / 100), digitCh (N % 1000 / 10 % 10), digitCh (N % 1000 % 10)]

/-- Whether a character list contains an occurrence of `-->`. -/
def hasArrow : List Char → Bool
  | '-' :: '-' :: '>' :: _ => true
  | _ :: rest => hasArrow rest
  | [] => false

/-- The entry strings `write_srt` produces, one per segment, numbering from
`i` (a segment lacking `text` contributes a placeholder, never reached when
every segment carries `text`). -/
def srtEntries : ℕ → List Segment → List String
  | _, [] => []
  | i, seg :: rest =>
    (match seg.text with
     | some t => srtEntry i seg t
     | none => "") :: srtEntries (i + 1) rest


/-! ## Arithmetic of the timestamp fields -/

theorem pyInt_pyFloorDiv (a b : ℚ) : pyInt (pyFloorDiv a b) = ⌊a / b⌋ := by
  unfold pyInt pyFloorDiv
  split
  · exact Int.floor_intCast _
  · rw [← Int.cast_neg, Int.floor_intCast]; ring

theorem pyInt_of_nonneg {q : ℚ} (h : 0 ≤ q) : pyInt q = ⌊q⌋ := by
  unfold pyInt
  exact if_pos h

theorem pyMod_nonneg {b : ℚ} (hb : 0 < b) (a : ℚ) : 0 ≤ pyMod a b := by
  unfold pyMod
  have h1 : ((⌊a / b⌋ : ℤ) : ℚ) * b ≤ a / b * b :=
    mul_le_mul_of_nonneg_right (Int.floor_le (a / b)) hb.le
  rw [div_mul_cancel₀ a hb.ne'] at h1
  nlinarith

theorem pyMod_lt {b : ℚ} (hb : 0 < b) (a : ℚ) : pyMod a b < b := by
  unfold pyMod
  have h1 : a / b < (⌊a / b⌋ : ℚ) + 1 := Int.lt_floor_add_one (a / b)
  have h2 : a < ((⌊a / b⌋ : ℚ) + 1) * b := by
    calc a = a / b * b := by rw [div_mul_cancel₀ a hb.ne']
    _ < ((⌊a / b⌋ : ℚ) + 1) * b := by
      exact mul_lt_mul_of_pos_right h1 hb
  nlinarith

theorem natFloor_thousandth (s : ℚ) : ⌊s⌋₊ = ⌊1000 * s⌋₊ / 1000 := by
  have h := Nat.floor_div_nat (1000 * s) 1000
  rw [show ((1000 : ℕ) : ℚ) = 1000 by norm_num,
    mul_div_cancel_left₀ s (by norm_num : (1000 : ℚ) ≠ 0)] at h
  exact h

theorem hours_toNat (s : ℚ) : ⌊s / 3600⌋.toNat = ⌊1000 * s⌋.toNat / 3600000 := by
  rw [Int.floor_toNat, Int.floor_toNat,
    show (3600 : ℚ) = ((3600 : ℕ) : ℚ) by norm_num, Nat.floor_div_nat,
    natFloor_thousandth s, Nat.div_div_eq_div_mul]

theorem intFloor_natCast_of_nonneg {s : ℚ} (hs : 0 ≤ s) : ⌊s⌋ = (⌊s⌋₊ : ℤ) := by
  rw [← Int.floor_toNat, Int.toNat_of_nonneg (Int.floor_nonneg.mpr hs)]

theorem floor_pyMod (s : ℚ) (k : ℕ) : ⌊pyMod s (k : ℚ)⌋ = ⌊s⌋ - k * ⌊s / k⌋ := by
  unfold pyMod
  rw [show ((k : ℚ)) * ((⌊s / (k : ℚ)⌋ : ℤ) : ℚ) = (((k : ℤ) * ⌊s / (k : ℚ)⌋ : ℤ) : ℚ) by
    push_cast; ring, Int.floor_sub_int]

theorem floor_div_natCast_of_nonneg {s : ℚ} (hs : 0 ≤ s) (k : ℕ) :
    ⌊s / (k : ℚ)⌋ = ((⌊s⌋₊ / k : ℕ) : ℤ) := by
  rw [intFloor_natCast_of_nonneg (by positivity : (0 : ℚ) ≤ s / (k : ℚ)),
    Nat.floor_div_nat]

theorem secs_toNat {s : ℚ} (hs : 0 ≤ s) :
    ⌊pyMod s 60⌋.toNat = ⌊1000 * s⌋.toNat / 1000 % 60 := by
  have h1 : ⌊pyMod s 60⌋ = ⌊s⌋ - 60 * ⌊s / 60⌋ := by
    have := floor_pyMod s 60
    push_cast at this
    exact this
  have h2 : ⌊s / (60 : ℚ)⌋ = ((⌊s⌋₊ / 60 : ℕ) : ℤ) := by
    have := floor_div_natCast_of_nonneg hs 60
    push_cast at this ⊢
    exact this
  have h3 : ⌊s⌋ = (⌊s⌋₊ : ℤ) := intFloor_natCast_of_nonneg hs
  have h4 : ⌊s⌋₊ = ⌊1000 * s⌋₊ / 1000 := natFloor_thousandth s
  have h5 : ⌊1000 * s⌋.toNat = ⌊1000 * s⌋₊ := Int.floor_toNat (1000 * s)
  omega

theorem minutes_toNat {s : ℚ} (hs : 0 ≤ s) :
    ⌊pyMod s 3600 / 60⌋.toNat = ⌊1000 * s⌋.toNat / 60000 % 60 := by
  have hm : (0 : ℚ) ≤ pyMod s 3600 := pyMod_nonneg (by norm_num) s
  have h0 : ⌊pyMod s 3600 / 60⌋.toNat = ⌊pyMod s 3600⌋₊ / 60 := by
    rw [Int.floor_toNat]
    have := Nat.floor_div_nat (pyMod s 3600) 60
    push_cast at this
    exact this
  have h1 : ⌊pyMod s 3600⌋ = ⌊s⌋ - 3600 * ⌊s / 3600⌋ := by
    have := floor_pyMod s 3600
    push_cast at this
    exact this
  have h1' : (⌊pyMod s 3600⌋₊ : ℤ) = ⌊pyMod s 3600⌋ := (intFloor_natCast_of_nonneg hm).symm
  have h2 : ⌊s / (3600 : ℚ)⌋ = ((⌊s⌋₊ / 3600 : ℕ) : ℤ) := by
    have := floor_div_natCast_of_nonneg hs 3600
    push_cast at this ⊢
    exact this
  have h3 : ⌊s⌋ = (⌊s⌋₊ : ℤ) := intFloor_natCast_of_nonneg hs
  have h4 : ⌊s⌋₊ = ⌊1000 * s⌋₊ / 1000 := natFloor_thousandth s
  have h5 : ⌊1000 * s⌋.toNat = ⌊1000 * s⌋₊ := Int.floor_toNat (1000 * s)
  omega

theorem millis_value {s : ℚ} (hs : 0 ≤ s) :
    pyInt ((s - (pyInt s : ℚ)) * 1000) = ⌊1000 * s⌋ - 1000 * ⌊s⌋ := by
  rw [pyInt_of_nonneg hs]
  have hfr : (0 : ℚ) ≤ s - (⌊s⌋ : ℚ) := sub_nonneg.mpr (Int.floor_le s)
  rw [pyInt_of_nonneg (by positivity)]
  rw [show (s - ((⌊s⌋ : ℤ) : ℚ)) * 1000 = 1000 * s - (((1000 * ⌊s⌋ : ℤ)) : ℚ) by
    push_cast; ring, Int.floor_sub_int]

theorem millis_toNat {s : ℚ} (hs : 0 ≤ s) :
    (pyInt ((s - (pyInt s : ℚ)) * 1000)).toNat = ⌊1000 * s⌋.toNat % 1000 := by
  have h1 := millis_value hs
  have h3 : ⌊s⌋ = (⌊s⌋₊ : ℤ) := intFloor_natCast_of_nonneg hs
  have h4 : ⌊s⌋₊ = ⌊1000 * s⌋₊ / 1000 := natFloor_thousandth s
  have h5 : ⌊1000 * s⌋.toNat = ⌊1000 * s⌋₊ := Int.floor_toNat (1000 * s)
  omega

theorem pyFormatD_of_nonneg {n : ℤ} (h : 0 ≤ n) (w : ℕ) :
    pyFormatD w n = zfill w (Nat.repr n.toNat) := by
  unfold pyFormatD
  rw [if_neg (not_lt.mpr h)]

/-- Master decomposition: for a non-negative number of seconds, the code's
truncation-based timestamp is the rendering of the whole number of
milliseconds `⌊1000 * s⌋`. -/
theorem format_timestamp_eq_timecode {s : ℚ} (hs : 0 ≤ s) :
    format_timestamp s = timecodeString ⌊1000 * s⌋.toNat := by
  have hmod60 : (0 : ℚ) ≤ pyMod s 60 := pyMod_nonneg (by norm_num) s
  have hmod3600 : (0 : ℚ) ≤ pyMod s 3600 := pyMod_nonneg (by norm_num) s
  have hhour : (0 : ℤ) ≤ ⌊s / 3600⌋ := Int.floor_nonneg.mpr (by positivity)
  have hmin : (0 : ℤ) ≤ ⌊pyMod s 3600 / 60⌋ := Int.floor_nonneg.mpr (by positivity)
  have hsec : (0 : ℤ) ≤ ⌊pyMod s 60⌋ := Int.floor_nonneg.mpr hmod60
  have hms : (0 : ℤ) ≤ pyInt ((s - (pyInt s : ℚ)) * 1000) := by
    rw [pyInt_of_nonneg hs]
    have hfr : (0 : ℚ) ≤ s - (⌊s⌋ : ℚ) := sub_nonneg.mpr (Int.floor_le s)
    rw [pyInt_of_nonneg (by positivity)]
    exact Int.floor_nonneg.mpr (by positivity)
  show pyFormatD 2 (pyInt (pyFloorDiv s 3600)) ++ ":"
      ++ pyFormatD 2 (pyInt (pyFloorDiv (pyMod s 3600) 60)) ++ ":"
      ++ pyFormatD 2 (pyInt (pyMod s 60)) ++ ","
      ++ pyFormatD 3 (pyInt ((s - (pyInt s : ℚ)) * 1000)) = _
  rw [pyInt_pyFloorDiv, pyInt_pyFloorDiv, pyInt_of_nonneg hmod60]
  rw [pyFormatD_of_nonneg hhour, pyFormatD_of_nonneg hmin, pyFormatD_of_nonneg hsec,
    pyFormatD_of_nonneg hms]
  rw [hours_toNat, minutes_toNat hs, secs_toNat hs, millis_toNat hs]
  rfl

/-- Evaluate a timestamp through the whole-milliseconds view. -/
theorem format_timestamp_of_floor {s : ℚ} {N : ℕ} (hs : 0 ≤ s)
    (hN : ⌊1000 * s⌋ = (N : ℤ)) : format_timestamp s = timecodeString N := by
  rw [format_timestamp_eq_timecode hs, hN, Int.toNat_natCast]

theorem fts_0 : format_timestamp 0 = "00:00:00,000" := by
  rw [format_timestamp_of_floor (s := 0) (N := 0) (by norm_num) (by norm_num)]
  rfl

theorem fts_1_5 : format_timestamp 1.5 = "00:00:01,500" := by
  rw [format_timestamp_of_floor (s := 1.5) (N := 1500) (by norm_num)
    (by norm_num [Int.floor_eq_iff])]
  rfl

theorem fts_3_25 : format_timestamp 3.25 = "00:00:03,250" := by
  rw [format_timestamp_of_floor (s := 3.25) (N := 3250) (by norm_num)
    (by norm_num [Int.floor_eq_iff])]
  rfl

theorem fts_5 : format_timestamp 5 = "00:00:05,000" := by
  rw [format_timestamp_of_floor (s := 5) (N := 5000) (by norm_num)
    (by norm_num [Int.floor_eq_iff])]
  rfl

theorem fts_2 : format_timestamp 2 = "00:00:02,000" := by
  rw [format_timestamp_of_floor (s := 2) (N := 2000) (by norm_num)
    (by norm_num [Int.floor_eq_iff])]
  rfl

theorem fts_1_9999 : format_timestamp 1.9999 = "00:00:01,999" := by
  rw [format_timestamp_of_floor (s := 1.9999) (N := 1999) (by norm_num)
    (by norm_num [Int.floor_eq_iff])]
  rfl

theorem fts_3661_5 : format_timestamp 3661.5 = "01:01:01,500" := by
  rw [format_timestamp_of_floor (s := 3661.5) (N := 3661500) (by norm_num)
    (by norm_num [Int.floor_eq_iff])]
  rfl

/-! ## Claims C1, C4, C5 -/

/-- The `write_srt` loop succeeds exactly when every segment carries the
`text` key; no property of `start`/`end` is inspected. -/
theorem write_srt_aux_ok_iff (segs : List Segment) :
    ∀ i acc, (∃ c, write_srt_aux i segs acc = .ok c) ↔ ∀ s ∈ segs, s.text ≠ none := by
  induction segs with
  | nil => intro i acc; simp [write_srt_aux]
  | cons seg rest ih =>
    intro i acc
    cases h : seg.text with
    | none => simp [write_srt_aux, h]
    | some t => simp [write_srt_aux, h, ih]

/-- C1, counterexample: the claim says a segment with `end < start` (such
as `{start:5.0, end:2.0}`) makes the serialize operation fail; in fact
`write_srt` performs no timing validation and serializes it successfully,
producing a complete entry with the reversed timecodes. -/
theorem C1_counterexample_end_before_start :
    write_srt [{ start := 5, «end» := 2, text := some "x" }]
      = .ok "1\n00:00:05,000 --> 00:00:02,000\nx\n\n" := by
  show write_srt_aux 1 _ "" = _
  simp only [write_srt_aux, srtEntry]
  rw [fts_5, fts_2]
  decide

/-- C1, amended: `write_srt` does not validate timing at all — a segment
with `end < start` or a negative `start`/`end` is serialized without
complaint — and the only failing condition is an absent `text` field,
which raises a `KeyError` (there is no `InvalidSegment` condition in the
code): the call succeeds exactly when every segment has a `text` field. -/
theorem C1_amended_write_srt_fails_iff_text_missing (segs : List Segment) :
    (∃ c, write_srt segs = .ok c) ↔ ∀ s ∈ segs, s.text ≠ none :=
  write_srt_aux_ok_iff segs 1 ""

/-- C4: on the spec's two-segment scenario, `write_srt` writes exactly the
lines `1`, `00:00:00,000 --> 00:00:01,500`, `Hello`, blank, `2`,
`00:00:01,500 --> 00:00:03,250`, `World → End`, blank — and nothing else. -/
theorem C4_end_to_end_scenario :
    write_srt [{ start := 0, «end» := 1.5, text := some "Hello" },
               { start := 1.5, «end» := 3.25, text := some "World --> End" }]
      = .ok ("1\n00:00:00,000 --> 00:00:01,500\nHello\n\n"
          ++ "2\n00:00:01,500 --> 00:00:03,250\nWorld → End\n\n") := by
  show write_srt_aux 1 _ "" = _
  simp only [write_srt_aux, srtEntry]
  rw [fts_0, fts_1_5, fts_3_25]
  decide

/-- C5: the formatter truncates (floors) at every unit boundary for
non-negative seconds — hours `⌊s/3600⌋`, minutes `⌊(s mod 3600)/60⌋`,
seconds `⌊s mod 60⌋`, milliseconds `⌊(s − ⌊s⌋)·1000⌋` — and in particular
`format_timestamp 1.9999 = "00:00:01,999"` (floor, not round) and
`format_timestamp 3661.5 = "01:01:01,500"`. -/
theorem C5_truncation_at_every_boundary :
    (∀ s : ℚ, 0 ≤ s →
      format_timestamp s
        = pyFormatD 2 ⌊s / 3600⌋ ++ ":" ++ pyFormatD 2 ⌊pyMod s 3600 / 60⌋ ++ ":"
            ++ pyFormatD 2 ⌊pyMod s 60⌋ ++ "," ++ pyFormatD 3 ⌊(s - (⌊s⌋ : ℚ)) * 1000⌋)
    ∧ format_timestamp 1.9999 = "00:00:01,999"
    ∧ format_timestamp 3661.5 = "01:01:01,500" := by
  refine ⟨fun s hs => ?_, fts_1_9999, fts_3661_5⟩
  have hmod60 : (0 : ℚ) ≤ pyMod s 60 := pyMod_nonneg (by norm_num) s
  have hfr : (0 : ℚ) ≤ s - (⌊s⌋ : ℚ) := sub_nonneg.mpr (Int.floor_le s)
  show pyFormatD 2 (pyInt (pyFloorDiv s 3600)) ++ ":"
      ++ pyFormatD 2 (pyInt (pyFloorDiv (pyMod s 3600) 60)) ++ ":"
      ++ pyFormatD 2 (pyInt (pyMod s 60)) ++ ","
      ++ pyFormatD 3 (pyInt ((s - (pyInt s : ℚ)) * 1000)) = _
  rw [pyInt_pyFloorDiv, pyInt_pyFloorDiv, pyInt_of_nonneg hmod60, pyInt_of_nonneg hs,
    pyInt_of_nonneg (by positivity)]

/-- C5 witness: the truncation identity applied at `s = 1.9999`. -/
theorem C5_truncation_witness :
    (0 : ℚ) ≤ 1.9999 ∧
      format_timestamp 1.9999
        = pyFormatD 2 ⌊(1.9999 : ℚ) / 3600⌋ ++ ":"
            ++ pyFormatD 2 ⌊pyMod (1.9999 : ℚ) 3600 / 60⌋ ++ ":"
            ++ pyFormatD 2 ⌊pyMod (1.9999 : ℚ) 60⌋ ++ ","
            ++ pyFormatD 3 ⌊((1.9999 : ℚ) - (⌊(1.9999 : ℚ)⌋ : ℚ)) * 1000⌋ :=
  ⟨by norm_num, C5_truncation_at_every_boundary.1 1.9999 (by norm_num)⟩

/-! ## Claim C8: shape of the formatted timecode -/

theorem zfill_length (w : ℕ) (s : String) : (zfill w s).length = max w s.length := by
  simp only [zfill, String.length, List.length_append, List.length_replicate]
  omega

theorem repr_length_le_two (m : ℕ) (h : m < 60) : (Nat.repr m).length ≤ 2 :=
  Nat.repr_length m 2 (by norm_num) (by omega)

theorem repr_length_le_three (m : ℕ) (h : m < 1000) : (Nat.repr m).length ≤ 3 :=
  Nat.repr_length m 3 (by norm_num) (by omega)

/-- C8: for non-negative seconds the formatted string is
`hours ":" minutes ":" secs "," millis` with minutes and secs zero-padded
to exactly two digits and in `0..59`, millis zero-padded to exactly three
digits and in `0..999`, and the hour field the full (unwrapped) decimal
value `⌊s/3600⌋` zero-padded to a minimum, not maximum, of two digits. -/
theorem C8_timestamp_shape (s : ℚ) (hs : 0 ≤ s) :
    ∃ hh mm sec ms : ℕ,
      (hh : ℤ) = ⌊s / 3600⌋ ∧ mm < 60 ∧ sec < 60 ∧ ms < 1000 ∧
      format_timestamp s
        = zfill 2 (Nat.repr hh) ++ ":" ++ zfill 2 (Nat.repr mm) ++ ":"
            ++ zfill 2 (Nat.repr sec) ++ "," ++ zfill 3 (Nat.repr ms) ∧
      (zfill 2 (Nat.repr hh)).length = max 2 (Nat.repr hh).length ∧
      2 ≤ (zfill 2 (Nat.repr hh)).length ∧
      (zfill 2 (Nat.repr mm)).length = 2 ∧
      (zfill 2 (Nat.repr sec)).length = 2 ∧
      (zfill 3 (Nat.repr ms)).length = 3 := by
  refine ⟨⌊1000 * s⌋.toNat / 3600000, ⌊1000 * s⌋.toNat / 60000 % 60,
    ⌊1000 * s⌋.toNat / 1000 % 60, ⌊1000 * s⌋.toNat % 1000, ?_, ?_, ?_, ?_, ?_, ?_, ?_, ?_, ?_, ?_⟩
  · rw [← hours_toNat s]
    exact Int.toNat_of_nonneg (Int.floor_nonneg.mpr (by positivity))
  · omega
  · omega
  · omega
  · rw [format_timestamp_eq_timecode hs]
    rfl
  · exact zfill_length 2 _
  · rw [zfill_length]; omega
  · rw [zfill_length]
    have := repr_length_le_two (⌊1000 * s⌋.toNat / 60000 % 60) (by omega)
    omega
  · rw [zfill_length]
    have := repr_length_le_two (⌊1000 * s⌋.toNat / 1000 % 60) (by omega)
    omega
  · rw [zfill_length]
    have := repr_length_le_three (⌊1000 * s⌋.toNat % 1000) (by omega)
    omega

/-- C8 witness: the shape property applied at `s = 3661.5`. -/
theorem C8_timestamp_shape_witness :
    (0 : ℚ) ≤ 3661.5 ∧
      ∃ hh mm sec ms : ℕ,
        (hh : ℤ) = ⌊(3661.5 : ℚ) / 3600⌋ ∧ mm < 60 ∧ sec < 60 ∧ ms < 1000 ∧
        format_timestamp 3661.5
          = zfill 2 (Nat.repr hh) ++ ":" ++ zfill 2 (Nat.repr mm) ++ ":"
              ++ zfill 2 (Nat.repr sec) ++ "," ++ zfill 3 (Nat.repr ms) ∧
        (zfill 2 (Nat.repr hh)).length = max 2 (Nat.repr hh).length ∧
        2 ≤ (zfill 2 (Nat.repr hh)).length ∧
        (zfill 2 (Nat.repr mm)).length = 2 ∧
        (zfill 2 (Nat.repr sec)).length = 2 ∧
        (zfill 3 (Nat.repr ms)).length = 3 :=
  ⟨by norm_num, C8_timestamp_shape 3661.5 (by norm_num)⟩

/-! ## Claim C6: index contiguity -/

theorem srtEntries_length (segs : List Segment) : ∀ i, (srtEntries i segs).length = segs.length := by
  induction segs with
  | nil => intro i; rfl
  | cons seg rest ih => intro i; simp [srtEntries, ih]

theorem write_srt_aux_entries (segs : List Segment) :
    ∀ i acc, (∀ s ∈ segs, s.text ≠ none) →
      write_srt_aux i segs acc = .ok (acc ++ (srtEntries i segs).foldr (· ++ ·) "") := by
  induction segs with
  | nil =>
    intro i acc _
    show WriteResult.ok acc = _
    simp [srtEntries]
  | cons seg rest ih =>
    intro i acc h
    obtain ⟨t, ht⟩ : ∃ t, seg.text = some t := by
      cases hc : seg.text with
      | none => exact absurd hc (h seg (by simp))
      | some t => exact ⟨t, rfl⟩
    show (match seg.text with
      | none => WriteResult.keyError acc
      | some t => write_srt_aux (i + 1) rest (acc ++ srtEntry i seg t)) = _
    rw [ht]
    show write_srt_aux (i + 1) rest (acc ++ srtEntry i seg t) = _
    rw [ih (i + 1) (acc ++ srtEntry i seg t) (fun s hs => h s (by simp [hs]))]
    simp [srtEntries, ht, String.append_assoc]

theorem srtEntries_get (segs : List Segment) :
    ∀ i j (hj : j < (srtEntries i segs).length), (∀ s ∈ segs, s.text ≠ none) →
      ∃ rest, (srtEntries i segs).get ⟨j, hj⟩ = Nat.repr (i + j) ++ "\n" ++ rest := by
  induction segs with
  | nil => intro i j hj _; simp [srtEntries] at hj
  | cons seg rest ih =>
    intro i j hj h
    obtain ⟨t, ht⟩ : ∃ t, seg.text = some t := by
      cases hc : seg.text with
      | none => exact absurd hc (h seg (by simp))
      | some t => exact ⟨t, rfl⟩
    match j with
    | 0 =>
      refine ⟨format_timestamp seg.start ++ " --> " ++ format_timestamp seg.«end» ++ "\n"
        ++ pySanitize t ++ "\n\n", ?_⟩
      simp [srtEntries, ht, srtEntry, String.append_assoc]
    | j + 1 =>
      have hj' : j < (srtEntries (i + 1) rest).length := by
        have := hj
        simp only [srtEntries, List.length_cons] at this
        omega
      obtain ⟨r, hr⟩ := ih (i + 1) j hj' (fun s hs => h s (by simp [hs]))
      refine ⟨r, ?_⟩
      have hget : (srtEntries i (seg :: rest)).get ⟨j + 1, hj⟩
          = (srtEntries (i + 1) rest).get ⟨j, hj'⟩ := rfl
      rw [hget, hr, show i + 1 + j = i + (j + 1) by omega]

/-- C6: when every segment carries `text`, the document `write_srt` writes
is the concatenation, in input order, of exactly `N = segs.length` entry
strings, the `j`-th of which begins with the index line `j + 1` — the
indices run `1..N` with no gaps, duplicates or reordering. -/
theorem C6_index_contiguity (segs : List Segment) (h : ∀ s ∈ segs, s.text ≠ none) :
    ∃ entries : List String,
      write_srt segs = .ok (entries.foldr (· ++ ·) "") ∧
      entries.length = segs.length ∧
      ∀ j (hj : j < entries.length),
        ∃ rest, entries.get ⟨j, hj⟩ = Nat.repr (j + 1) ++ "\n" ++ rest := by
  refine ⟨srtEntries 1 segs, ?_, srtEntries_length segs 1, ?_⟩
  · rw [show write_srt segs = write_srt_aux 1 segs "" from rfl,
      write_srt_aux_entries segs 1 "" h]
    rfl
  · intro j hj
    obtain ⟨r, hr⟩ := srtEntries_get segs 1 j hj h
    rw [Nat.add_comm 1 j] at hr
    exact ⟨r, hr⟩

/-- C6 witness: the index property on a concrete one-segment input. -/
theorem C6_index_contiguity_witness :
    ∃ entries : List String,
      write_srt [{ start := 0, «end» := 1.5, text := some "Hello" }]
          = .ok (entries.foldr (· ++ ·) "") ∧
      entries.length = 1 ∧
      ∀ j (hj : j < entries.length),
        ∃ rest, entries.get ⟨j, hj⟩ = Nat.repr (j + 1) ++ "\n" ++ rest :=
  C6_index_contiguity _ (by simp)

/-! ## Claims C7 and C10: text sanitization -/

theorem stripList_eq_rdropWhile (l : List Char) :
    stripList l = (l.dropWhile pyIsSpace).rdropWhile pyIsSpace := rfl

theorem head?_dropWhile_false (p : Char → Bool) (l : List Char) :
    ∀ c, (l.dropWhile p).head? = some c → p c = false := by
  induction l with
  | nil => simp
  | cons a t ih =>
    intro c h
    rw [List.dropWhile_cons] at h
    split at h
    · exact ih c h
    · next hp =>
      simp only [List.head?_cons, Option.some.injEq] at h
      subst h
      simpa using hp

theorem getLast?_rdropWhile_false (p : Char → Bool) (l : List Char) :
    ∀ c, (l.rdropWhile p).getLast? = some c → p c = false := by
  intro c h
  rw [List.rdropWhile, List.getLast?_reverse] at h
  exact head?_dropWhile_false p l.reverse c h

theorem head?_transfer {l₁ l₂ : List Char} {c : Char} (hp : l₁ <+: l₂)
    (h : l₁.head? = some c) : l₂.head? = some c := by
  obtain ⟨t, ht⟩ := hp
  cases l₁ with
  | nil => simp at h
  | cons a u => simp only [List.head?_cons, Option.some.injEq] at h; subst h; rw [← ht]; rfl

theorem stripList_head?_false (l : List Char) :
    ∀ c, (stripList l).head? = some c → pyIsSpace c = false := by
  intro c h
  rw [stripList_eq_rdropWhile] at h
  exact head?_dropWhile_false pyIsSpace l c
    (head?_transfer (List.rdropWhile_prefix _ _) h)

theorem stripList_getLast?_false (l : List Char) :
    ∀ c, (stripList l).getLast? = some c → pyIsSpace c = false := by
  intro c h
  rw [stripList_eq_rdropWhile] at h
  exact getLast?_rdropWhile_false pyIsSpace _ c h

theorem dropWhile_eq_self_of_head? {p : Char → Bool} {l : List Char}
    (h : ∀ c, l.head? = some c → p c = false) : l.dropWhile p = l := by
  cases l with
  | nil => rfl
  | cons a t =>
    rw [List.dropWhile_cons, if_neg]
    simp [h a rfl]

theorem rdropWhile_eq_self_of_getLast? {p : Char → Bool} {l : List Char}
    (h : ∀ c, l.getLast? = some c → p c = false) : l.rdropWhile p = l := by
  rw [List.rdropWhile_eq_self_iff]
  intro hl
  have hg := h (l.getLast hl) (List.getLast?_eq_getLast l hl)
  simp [hg]

theorem replaceArrow_eq_nil_iff (l : List Char) : replaceArrow l = [] ↔ l = [] := by
  induction l using replaceArrow.induct with
  | case1 rest ih => simp [replaceArrow]
  | case2 c rest hne ih => simp_all [replaceArrow]
  | case3 => simp [replaceArrow]

theorem replaceArrow_head? (l : List Char) :
    (replaceArrow l).head? = some '→' ∨ (replaceArrow l).head? = l.head? := by
  induction l using replaceArrow.induct with
  | case1 rest ih => left; simp [replaceArrow]
  | case2 c rest hne ih => right; simp_all [replaceArrow]
  | case3 => right; rfl

theorem replaceArrow_getLast? (l : List Char) :
    (replaceArrow l).getLast? = some '→' ∨ (replaceArrow l).getLast? = l.getLast? := by
  induction l using replaceArrow.induct with
  | case1 rest ih =>
    have heq : replaceArrow ('-' :: '-' :: '>' :: rest) = '→' :: replaceArrow rest := by
      simp [replaceArrow]
    cases hr : replaceArrow rest with
    | nil =>
      left
      have : rest = [] := (replaceArrow_eq_nil_iff rest).mp hr
      subst this
      rw [heq, hr]
      rfl
    | cons a t =>
      have hrne : rest ≠ [] := by
        intro he
        subst he
        simp [replaceArrow] at hr
      have h1 : ('→' :: replaceArrow rest).getLast? = (replaceArrow rest).getLast? := by
        rw [hr]; exact List.getLast?_cons_cons
      have h2 : ('-' :: '-' :: '>' :: rest).getLast? = rest.getLast? := by
        cases rest with
        | nil => exact absurd rfl hrne
        | cons b u => simp [List.getLast?_cons_cons]
      rcases ih with h | h
      · left; rw [heq, h1, h]
      · right; rw [heq, h1, h, h2]
  | case2 c rest hne ih =>
    have heq : replaceArrow (c :: rest) = c :: replaceArrow rest := by
      simp_all [replaceArrow]
    cases hr : replaceArrow rest with
    | nil =>
      right
      have : rest = [] := (replaceArrow_eq_nil_iff rest).mp hr
      subst this
      rw [heq, hr]
    | cons a t =>
      have hrne : rest ≠ [] := by
        intro he
        subst he
        simp [replaceArrow] at hr
      have h1 : (c :: replaceArrow rest).getLast? = (replaceArrow rest).getLast? := by
        rw [hr]; exact List.getLast?_cons_cons
      have h2 : (c :: rest).getLast? = rest.getLast? := by
        cases rest with
        | nil => exact absurd rfl hrne
        | cons b u => exact List.getLast?_cons_cons
      rcases ih with h | h
      · left; rw [heq, h1, h]
      · right; rw [heq, h1, h, h2]
  | case3 => right; rfl

theorem replaceArrow_keeps_head (l : List Char) :
    (∀ t, replaceArrow l = '>' :: t → ∃ u, l = '>' :: u) ∧
    (∀ t, replaceArrow l = '-' :: '>' :: t → ∃ u, l = '-' :: '>' :: u) := by
  induction l using replaceArrow.induct with
  | case1 rest ih =>
    constructor <;> · intro t h; simp [replaceArrow] at h
  | case2 c rest hne ih =>
    have heq : replaceArrow (c :: rest) = c :: replaceArrow rest := by
      simp_all [replaceArrow]
    constructor
    · intro t h
      rw [heq] at h
      exact ⟨rest, by rw [(List.cons.injEq _ _ _ _).mp h |>.1]⟩
    · intro t h
      rw [heq] at h
      obtain ⟨hc, hrest⟩ := (List.cons.injEq _ _ _ _).mp h
      obtain ⟨u, hu⟩ := ih.1 t hrest
      exact ⟨u, by rw [hc, hu]⟩
  | case3 =>
    constructor <;> · intro t h; simp [replaceArrow] at h

theorem not_infix_replaceArrow (l : List Char) :
    ¬ (['-', '-', '>'] <:+: replaceArrow l) := by
  induction l using replaceArrow.induct with
  | case1 rest ih =>
    have heq : replaceArrow ('-' :: '-' :: '>' :: rest) = '→' :: replaceArrow rest := by
      simp [replaceArrow]
    rw [heq, List.infix_cons_iff]
    rintro (hpre | hinf)
    · obtain ⟨he, -⟩ := List.cons_prefix_cons.mp hpre
      exact absurd he (by decide)
    · exact ih hinf
  | case2 c rest hne ih =>
    have heq : replaceArrow (c :: rest) = c :: replaceArrow rest := by
      simp_all [replaceArrow]
    rw [heq, List.infix_cons_iff]
    rintro (hpre | hinf)
    · obtain ⟨he, hpre2⟩ := List.cons_prefix_cons.mp hpre
      obtain ⟨t, ht⟩ := hpre2
      obtain ⟨u, hu⟩ := (replaceArrow_keeps_head rest).2 t ht.symm
      exact hne u he.symm hu
    · exact ih hinf
  | case3 =>
    intro h
    simp [replaceArrow] at h

theorem replaceArrow_eq_self {l : List Char} (h : ¬ (['-', '-', '>'] <:+: l)) :
    replaceArrow l = l := by
  induction l using replaceArrow.induct with
  | case1 rest ih =>
    exact absurd ⟨[], rest, rfl⟩ h
  | case2 c rest hne ih =>
    have heq : replaceArrow (c :: rest) = c :: replaceArrow rest := by
      simp_all [replaceArrow]
    rw [heq, ih (fun hi => h (List.infix_cons hi))]
  | case3 => rfl

/-- C7: after sanitization, the text line contains zero occurrences of the
separator `-->`; replacement never creates a new occurrence.  This holds
for every input string, in particular for those containing `-->`. -/
theorem C7_separator_safety (s : String) :
    ¬ (['-', '-', '>'] <:+: (pySanitize s).data) :=
  not_infix_replaceArrow (stripList s.data)

theorem stripList_replaceArrow_stripList (l : List Char) :
    stripList (replaceArrow (stripList l)) = replaceArrow (stripList l) := by
  have hhead : ∀ c, (replaceArrow (stripList l)).head? = some c → pyIsSpace c = false := by
    intro c hc
    rcases replaceArrow_head? (stripList l) with h | h
    · rw [h] at hc
      cases hc
      decide
    · exact stripList_head?_false l c (h ▸ hc)
  have hlast : ∀ c, (replaceArrow (stripList l)).getLast? = some c → pyIsSpace c = false := by
    intro c hc
    rcases replaceArrow_getLast? (stripList l) with h | h
    · rw [h] at hc
      cases hc
      decide
    · exact stripList_getLast?_false l c (h ▸ hc)
  rw [stripList_eq_rdropWhile, dropWhile_eq_self_of_head? hhead,
    rdropWhile_eq_self_of_getLast? hlast]

/-- C10: the sanitization step (strip, then replace `-->` by `→`) is
idempotent — applying it twice gives the same string as applying it once:
the replacement leaves no edge whitespace for the second strip to take,
and never manufactures a fresh `-->` for the second replace to rewrite. -/
theorem C10_sanitize_idempotent (s : String) :
    pySanitize (pySanitize s) = pySanitize s := by
  show (⟨replaceArrow (stripList (replaceArrow (stripList s.data)))⟩ : String)
      = ⟨replaceArrow (stripList s.data)⟩
  rw [stripList_replaceArrow_stripList,
    replaceArrow_eq_self (not_infix_replaceArrow (stripList s.data))]

/-! ## Claims C3 and C9: CLI control flow -/

theorem extract_subtitles_m_ok (w : World) (hp : w.probe = .hasAudio)
    (ht : ∀ s ∈ w.transcribedSegments, s.text ≠ none) :
    extract_subtitles_m w = .ok (some "subtitles.srt") := by
  obtain ⟨c, hc⟩ := (write_srt_aux_ok_iff w.transcribedSegments 1 "").mpr ht
  have hc' : write_srt w.transcribedSegments = .ok c := hc
  unfold extract_subtitles_m has_audio_stream_m
  rw [hp, hc']
  rfl

theorem main_m_nameError (a : Args) (w : World) (hfile : w.fileExists = true)
    (hflag : a.audio_to_video = true ∨ a.combine = true)
    (hex : ∃ r, extractStep a w = .ok r) :
    main_m a w = .nameError "transform_audio_to_video" := by
  obtain ⟨r, hr⟩ := hex
  have hres : pyResolve "transform_audio_to_video" = none := by decide
  unfold main_m
  rw [hfile, hr]
  rcases hflag with h | h <;> simp [h, hres]

/-- C3: whenever the `--audio_to_video` or `--combine` flag is set, the
input file exists, and the subtitle-extraction step did not already abort,
`main` reaches the call `transform_audio_to_video(...)` (cli.py line 189),
whose name is bound by no top-level definition of the module, so the run
dies with an unhandled `NameError` and never terminates via an exit code
(in particular never with code 0). -/
theorem C3_audio_to_video_always_name_error (a : Args) (w : World)
    (hfile : w.fileExists = true)
    (hflag : a.audio_to_video = true ∨ a.combine = true)
    (hex : ∃ r, extractStep a w = .ok r) :
    "transform_audio_to_video" ∉ moduleTopLevelNames ∧
    main_m a w = .nameError "transform_audio_to_video" ∧
    ∀ n, main_m a w ≠ .exited n := by
  have hmain := main_m_nameError a w hfile hflag hex
  exact ⟨by decide, hmain, fun n h => by rw [hmain] at h; cases h⟩

/-- C3 witness: a concrete `--audio_to_video` invocation on an existing
file with an audio stream. -/
theorem C3_audio_to_video_always_name_error_witness :
    "transform_audio_to_video" ∉ moduleTopLevelNames ∧
    main_m ⟨false, true, false, false⟩ ⟨true, .hasAudio, [], false⟩
        = .nameError "transform_audio_to_video" ∧
    ∀ n, main_m ⟨false, true, false, false⟩ ⟨true, .hasAudio, [], false⟩ ≠ .exited n :=
  C3_audio_to_video_always_name_error ⟨false, true, false, false⟩
    ⟨true, .hasAudio, [], false⟩ rfl (Or.inl rfl) ⟨none, rfl⟩

/-- C9 counterexample: with only `--extract_subtitles` set, an existing
input file lacking an audio track — one of the claim's exit-code-1
conditions — makes `main` print a message, skip extraction and fall off
the end, terminating with exit code 0, not 1. -/
theorem C9_counterexample_no_audio_exits_zero :
    main_m ⟨true, false, false, false⟩ ⟨true, .noAudio, [], false⟩ = .exited 0 ∧
    main_m ⟨true, false, false, false⟩ ⟨true, .noAudio, [], false⟩ ≠ .exited 1 :=
  ⟨rfl, by decide⟩

/-- C9, amended: the exit behaviour of `main` is: exit 1 when the input
file is missing, when the ffmpeg probe raises, and — in the
`--audio_to_video_with_subtitles` mode only — when no subtitle file was
produced (missing audio track) or the media transform fails; a missing
audio track in an extract-only run merely skips extraction and exits 0;
successful runs exit 0; and the `--audio_to_video`/`--combine` modes never
reach an exit code at all, dying with an unhandled `NameError`. -/
theorem C9_amended_exit_codes :
    (∀ a w, w.fileExists = false → main_m a w = .exited 1) ∧
    (∀ w, w.fileExists = true → w.probe = .probeError →
        main_m ⟨true, false, false, false⟩ w = .exited 1) ∧
    (∀ w, w.fileExists = true → w.probe = .noAudio →
        main_m ⟨true, false, false, false⟩ w = .exited 0) ∧
    (∀ w, w.fileExists = true → w.probe = .hasAudio →
        (∀ s ∈ w.transcribedSegments, s.text ≠ none) →
        main_m ⟨true, false, false, false⟩ w = .exited 0) ∧
    (∀ a w, (a.audio_to_video = true ∨ a.combine = true) → w.fileExists = true →
        (∃ r, extractStep a w = .ok r) →
        main_m a w = .nameError "transform_audio_to_video") ∧
    (∀ w, w.fileExists = true → w.probe = .noAudio →
        main_m ⟨false, false, true, false⟩ w = .exited 1) ∧
    (∀ w, w.fileExists = true → w.probe = .hasAudio →
        (∀ s ∈ w.transcribedSegments, s.text ≠ none) →
        main_m ⟨false, false, true, false⟩ w
          = .exited (if w.transformFails then 1 else 0)) := by
  refine ⟨?_, ?_, ?_, ?_, fun a w h1 h2 h3 => main_m_nameError a w h2 h1 h3, ?_, ?_⟩
  · intro a w h
    unfold main_m
    rw [h]
    rfl
  · intro w hf hp
    unfold main_m extractStep extract_subtitles_m has_audio_stream_m
    rw [hf, hp]
    rfl
  · intro w hf hp
    unfold main_m extractStep extract_subtitles_m has_audio_stream_m
    rw [hf, hp]
    rfl
  · intro w hf hp ht
    unfold main_m
    rw [hf, show extractStep ⟨true, false, false, false⟩ w = extract_subtitles_m w from rfl,
      extract_subtitles_m_ok w hp ht]
    rfl
  · intro w hf hp
    unfold main_m
    rw [hf, show extractStep ⟨false, false, true, false⟩ w = extract_subtitles_m w from rfl]
    unfold extract_subtitles_m has_audio_stream_m
    rw [hp]
    rfl
  · intro w hf hp ht
    unfold main_m
    rw [hf, show extractStep ⟨false, false, true, false⟩ w = extract_subtitles_m w from rfl,
      extract_subtitles_m_ok w hp ht]
    show transform_avws_m w = _
    unfold transform_avws_m has_audio_stream_m
    rw [hp]
    rcases hT : w.transformFails <;> simp [hT]

/-- C9 witness: the amended characterization applied to a concrete run —
an existing file without an audio track in extract-only mode exits 0. -/
theorem C9_amended_exit_codes_witness :
    main_m ⟨true, false, false, false⟩ ⟨true, .noAudio, [⟨0, 1, none⟩], true⟩ = .exited 0 :=
  C9_amended_exit_codes.2.2.1 ⟨true, .noAudio, [⟨0, 1, none⟩], true⟩ rfl rfl

/-! ## Claim C2: lexicographic monotonicity of timecodes -/

set_option maxRecDepth 4000 in
theorem zfill_two_digits : ∀ n : ℕ, n < 100 →
    zfill 2 (Nat.repr n) = ⟨[digitCh (n / 10), digitCh (n % 10)]⟩ := by decide

set_option maxRecDepth 40000 in
theorem zfill_three_digits : ∀ n : ℕ, n < 1000 →
    zfill 3 (Nat.repr n) = ⟨[digitCh (n / 100), digitCh (n / 10 % 10), digitCh (n % 10)]⟩ := by
  decide

theorem digitCh_lt_of_lt : ∀ a : ℕ, a < 10 → ∀ b : ℕ, b < 10 → a < b →
    digitCh a < digitCh b := by decide

theorem timecodeString_data {N : ℕ} (h : N < 360000000) :
    (timecodeString N).data = timecodeDigits N := by
  have hh : N / 3600000 < 100 := by omega
  have hm : N / 60000 % 60 < 100 := by omega
  have hs : N / 1000 % 60 < 100 := by omega
  have hms : N % 1000 < 1000 := by omega
  unfold timecodeString timecodeDigits
  rw [zfill_two_digits _ hh, zfill_two_digits _ hm, zfill_two_digits _ hs,
    zfill_three_digits _ hms]
  rfl

theorem lex_two_digit {x y : ℕ} (hy : y < 100) (hxy : x < y) (l₁ l₂ : List Char) :
    List.Lex (· < ·) (digitCh (x / 10) :: digitCh (x % 10) :: l₁)
      (digitCh (y / 10) :: digitCh (y % 10) :: l₂) := by
  rcases Nat.lt_or_ge (x / 10) (y / 10) with h | h
  · exact List.Lex.rel (digitCh_lt_of_lt _ (by omega) _ (by omega) h)
  · have hdiv : x / 10 = y / 10 := by omega
    have hmod : x % 10 < y % 10 := by omega
    rw [hdiv]
    exact List.Lex.cons (List.Lex.rel (digitCh_lt_of_lt _ (by omega) _ (by omega) hmod))

theorem lex_three_digit {x y : ℕ} (hy : y < 1000) (hxy : x < y) (l₁ l₂ : List Char) :
    List.Lex (· < ·)
      (digitCh (x / 100) :: digitCh (x / 10 % 10) :: digitCh (x % 10) :: l₁)
      (digitCh (y / 100) :: digitCh (y / 10 % 10) :: digitCh (y % 10) :: l₂) := by
  rcases Nat.lt_or_ge (x / 100) (y / 100) with h | h
  · exact List.Lex.rel (digitCh_lt_of_lt _ (by omega) _ (by omega) h)
  · have hdiv : x / 100 = y / 100 := by omega
    rw [hdiv]
    rcases Nat.lt_or_ge (x / 10 % 10) (y / 10 % 10) with h2 | h2
    · exact List.Lex.cons (List.Lex.rel (digitCh_lt_of_lt _ (by omega) _ (by omega) h2))
    · have hdiv2 : x / 10 % 10 = y / 10 % 10 := by omega
      have hmod : x % 10 < y % 10 := by omega
      rw [hdiv2]
      exact List.Lex.cons (List.Lex.cons
        (List.Lex.rel (digitCh_lt_of_lt _ (by omega) _ (by omega) hmod)))

theorem timecodeDigits_le {N₁ N₂ : ℕ} (h12 : N₁ ≤ N₂) (h2 : N₂ < 360000000) :
    timecodeDigits N₁ = timecodeDigits N₂
      ∨ List.Lex (· < ·) (timecodeDigits N₁) (timecodeDigits N₂) := by
  unfold timecodeDigits
  have hH : N₁ / 3600000 ≤ N₂ / 3600000 := by omega
  rcases hH.lt_or_eq with hHlt | hHeq
  · exact Or.inr (lex_two_digit (by omega) hHlt _ _)
  · rw [hHeq]
    have hM : N₁ / 60000 % 60 ≤ N₂ / 60000 % 60 := by omega
    rcases hM.lt_or_eq with hMlt | hMeq
    · exact Or.inr (List.Lex.cons (List.Lex.cons (List.Lex.cons
        (lex_two_digit (by omega) hMlt _ _))))
    · rw [hMeq]
      have hS : N₁ / 1000 % 60 ≤ N₂ / 1000 % 60 := by omega
      rcases hS.lt_or_eq with hSlt | hSeq
      · exact Or.inr (List.Lex.cons (List.Lex.cons (List.Lex.cons (List.Lex.cons
          (List.Lex.cons (List.Lex.cons (lex_two_digit (by omega) hSlt _ _)))))))
      · rw [hSeq]
        have hMS : N₁ % 1000 ≤ N₂ % 1000 := by omega
        rcases hMS.lt_or_eq with hMSlt | hMSeq
        · exact Or.inr (List.Lex.cons (List.Lex.cons (List.Lex.cons (List.Lex.cons
            (List.Lex.cons (List.Lex.cons (List.Lex.cons (List.Lex.cons (List.Lex.cons
              (lex_three_digit (by omega) hMSlt _ _))))))))))
        · rw [hMSeq]
          exact Or.inl rfl

theorem timecodeString_le {N₁ N₂ : ℕ} (h12 : N₁ ≤ N₂) (h2 : N₂ < 360000000) :
    timecodeString N₁ ≤ timecodeString N₂ := by
  rcases timecodeDigits_le h12 h2 with he | hlex
  · exact le_of_eq (String.toList_inj.mp (by
      rw [show (timecodeString N₁).toList = timecodeDigits N₁ from
          timecodeString_data (by omega),
        show (timecodeString N₂).toList = timecodeDigits N₂ from timecodeString_data h2, he]))
  · apply le_of_lt
    rw [String.lt_iff_toList_lt]
    show (timecodeString N₁).data < (timecodeString N₂).data
    rw [timecodeString_data (show N₁ < 360000000 by omega), timecodeString_data h2]
    exact hlex

/-- C2, counterexample: monotonicity fails once a time reaches one hundred
hours, because the hour field grows to three digits while two-digit hour
strings starting with `9` compare above `1`: for `start = 359999` and
`end = 360000` (with `end ≥ start ≥ 0`), the end timecode
`100:00:00,000` is lexicographically smaller than the start timecode
`99:59:59,000`. -/
theorem C2_counterexample_hundred_hours :
    (0 : ℚ) ≤ 359999 ∧ (359999 : ℚ) ≤ 360000 ∧
    ¬ (format_timestamp 359999 ≤ format_timestamp 360000) := by
  refine ⟨by norm_num, by norm_num, ?_⟩
  rw [format_timestamp_of_floor (s := 359999) (N := 359999000) (by norm_num)
      (by norm_num [Int.floor_eq_iff]),
    format_timestamp_of_floor (s := 360000) (N := 360000000) (by norm_num)
      (by norm_num [Int.floor_eq_iff]),
    not_le,
    show timecodeString 359999000 = "99:59:59,000" from rfl,
    show timecodeString 360000000 = "100:00:00,000" from rfl,
    String.lt_iff_toList_lt]
  exact List.Lex.rel (by decide : ('1' : Char) < '9')

/-- C2, amended: for `end ≥ start ≥ 0` the formatted end timecode is
lexicographically ≥ the formatted start timecode, provided both times lie
below one hundred hours (360000 seconds), so that the two hour fields have
the same two-digit width. -/
theorem C2_amended_timecode_monotone (st en : ℚ) (h0 : 0 ≤ st) (hse : st ≤ en)
    (hub : en < 360000) : format_timestamp st ≤ format_timestamp en := by
  have h0' : (0 : ℚ) ≤ en := le_trans h0 hse
  rw [format_timestamp_eq_timecode h0, format_timestamp_eq_timecode h0']
  have hfl : ⌊(1000 : ℚ) * st⌋ ≤ ⌊(1000 : ℚ) * en⌋ :=
    Int.floor_le_floor (by linarith)
  have hub' : ⌊(1000 : ℚ) * en⌋ < 360000000 :=
    Int.floor_lt.mpr (by push_cast; linarith)
  exact timecodeString_le (by omega) (by omega)

/-- C2 witness: monotonicity applied at `start = 1.5`, `end = 3.25`. -/
theorem C2_amended_timecode_monotone_witness :
    (0 : ℚ) ≤ 1.5 ∧ (1.5 : ℚ) ≤ 3.25 ∧ (3.25 : ℚ) < 360000 ∧
    format_timestamp 1.5 ≤ format_timestamp 3.25 :=
  ⟨by norm_num, by norm_num, by norm_num,
    C2_amended_timecode_monotone 1.5 3.25 (by norm_num) (by norm_num) (by norm_num)⟩
